import Mathlib

/-!
Verification of the betting-analysis engine: arbitrage detection
(`src/analysis/arbitrage.py`), value-bet detection (`src/analysis/value.py`)
and line-movement / closing-line-value analysis
(`src/analysis/line_movement.py`).

Modelling conventions:
* Python `Decimal` values are embedded as exact rationals (`ℚ`); `round(x, n)`
  on `Decimal` quantizes to `n` decimal places with half-even rounding, which
  `roundDp` reproduces.
* Python `dict`s (which preserve insertion order) are embedded as association
  lists `List (String × _)` in insertion order; `set` iteration order is
  embedded as an explicit `List String`.
* Code that can raise (division by zero) is embedded in `Except Unit`;
  `Except.error ()` marks a raised `DivisionByZero`/`KeyError`.
-/

/- ### Half-even decimal rounding (Python `round` on `Decimal`) -/

/-- Round a rational to the nearest integer with ties going to the even
integer, as Python's `round` does on `Decimal` values. -/
def roundHalfEven (q : ℚ) : ℤ :=
  if Int.fract q = 1/2 then (if ⌊q⌋ % 2 = 0 then ⌊q⌋ else ⌊q⌋ + 1) else round q

/-- Python `round(x, n)` on a `Decimal`: quantize to `n` decimal places,
ties to even. -/
def roundDp (n : ℕ) (q : ℚ) : ℚ := (roundHalfEven (q * 10 ^ n) : ℚ) / 10 ^ n

theorem abs_roundHalfEven_sub (q : ℚ) : |(roundHalfEven q : ℚ) - q| ≤ 1/2 := by
  unfold roundHalfEven
  split_ifs with h1 h2
  · have hfl : (⌊q⌋ : ℚ) = q - 1/2 := by
      rw [Int.fract] at h1; linarith
    rw [hfl]
    rw [show q - 1/2 - q = -(1/2) by ring, abs_neg,
      abs_of_pos (by norm_num : (0:ℚ) < 1/2)]
  · have hfl : (⌊q⌋ : ℚ) = q - 1/2 := by
      rw [Int.fract] at h1; linarith
    push_cast
    rw [hfl]
    rw [show q - 1/2 + 1 - q = 1/2 by ring,
      abs_of_pos (by norm_num : (0:ℚ) < 1/2)]
  · have h := abs_sub_round q
    rwa [abs_sub_comm] at h

theorem abs_roundDp_sub (n : ℕ) (q : ℚ) : |roundDp n q - q| ≤ 1 / (2 * 10 ^ n) := by
  unfold roundDp
  have h10 : (0:ℚ) < 10 ^ n := by positivity
  have key : (roundHalfEven (q * 10 ^ n) : ℚ) / 10 ^ n - q
      = ((roundHalfEven (q * 10 ^ n) : ℚ) - q * 10 ^ n) / 10 ^ n := by
    field_simp
    ring
  rw [key, abs_div, abs_of_pos h10]
  have h := abs_roundHalfEven_sub (q * 10 ^ n)
  have h2 : |(roundHalfEven (q * 10 ^ n) : ℚ) - q * 10 ^ n| / 10 ^ n ≤ (1/2) / 10 ^ n :=
    (div_le_div_iff_of_pos_right h10).mpr h
  calc |(roundHalfEven (q * 10 ^ n) : ℚ) - q * 10 ^ n| / 10 ^ n
      ≤ (1/2) / 10 ^ n := h2
    _ = 1 / (2 * 10 ^ n) := by rw [div_div]

theorem roundHalfEven_eq_of (q : ℚ) (m : ℤ) (h1 : (m : ℚ) - 1/2 < q)
    (h2 : q < (m : ℚ) + 1/2) : roundHalfEven q = m := by
  have hround : round q = m := by
    rw [round_eq]
    rw [Int.floor_eq_iff]
    constructor
    · linarith
    · linarith
  have hnf : Int.fract q ≠ 1/2 := by
    intro hf
    have hq : q = (⌊q⌋ : ℚ) + 1/2 := by
      rw [Int.fract] at hf; linarith
    have hlt1 : (m : ℚ) - 1 < (⌊q⌋ : ℚ) := by rw [hq] at h1; linarith
    have hlt2 : ((⌊q⌋ : ℚ)) < (m : ℚ) := by rw [hq] at h2; linarith
    have hz1 : m - 1 < ⌊q⌋ := by exact_mod_cast hlt1
    have hz2 : ⌊q⌋ < m := by exact_mod_cast hlt2
    omega
  unfold roundHalfEven
  rw [if_neg hnf]
  exact hround

theorem roundDp_eq_div (n : ℕ) (q : ℚ) (m : ℤ) (h1 : (m : ℚ) - 1/2 < q * 10 ^ n)
    (h2 : q * 10 ^ n < (m : ℚ) + 1/2) : roundDp n q = (m : ℚ) / 10 ^ n := by
  unfold roundDp
  rw [roundHalfEven_eq_of (q * 10 ^ n) m h1 h2]

theorem roundDp_eq_self (n : ℕ) (q : ℚ) (m : ℤ) (h : q * 10 ^ n = (m : ℚ)) :
    roundDp n q = q := by
  have h10 : (0:ℚ) < 10 ^ n := by positivity
  have := roundDp_eq_div n q m (by rw [h]; linarith) (by rw [h]; linarith)
  rw [this, ← h]
  field_simp

/- ### Arbitrage detection (`src/analysis/arbitrage.py`) -/

/-- A bookmaker's odds for one outcome (`OddsSnapshot`, arbitrage.py 46–54). -/
structure OddsSnapshot where
  bookmaker_key : String
  bookmaker_name : String
  outcome_name : String
  price : ℚ
  point : Option ℚ
deriving DecidableEq

/-- A single outcome with the best available odds (`ArbOutcome`, 14–21). -/
structure ArbOutcome where
  outcome_name : String
  best_price : ℚ
  bookmaker_key : String
  bookmaker_name : String
deriving DecidableEq

/-- A detected arbitrage opportunity (`ArbOpportunity`, 24–34). -/
structure ArbOpportunity where
  event_id : String
  home_team : String
  away_team : String
  market_type : String
  outcomes : List ArbOutcome
  profit_pct : ℚ
  total_implied_prob : ℚ
deriving DecidableEq

/-- One step of Python's `max(snapshots, key=lambda s: s.price)`: the current
best is replaced only by a strictly larger price, so under ties the first
maximal element wins. -/
def pyMaxStep (acc x : OddsSnapshot) : OddsSnapshot :=
  if acc.price < x.price then x else acc

/-- `max(snapshots, key=lambda s: s.price)` on a list with default for
the empty list (the code never reaches `max` on an empty list). -/
def bestSnap : List OddsSnapshot → OddsSnapshot
  | [] => { bookmaker_key := "", bookmaker_name := "", outcome_name := "",
            price := 0, point := none }
  | s :: ss => ss.foldl pyMaxStep s

/-- The best (highest) price offered for an outcome; `0` for an empty list. -/
def best_price_of (snaps : List OddsSnapshot) : ℚ := (bestSnap snaps).price

/-- The loop of `find_arbitrage` (arbitrage.py 82–94) building
`best_outcomes`; `none` models the early `return None` hit on an empty
snapshot list. -/
def best_outcomes : List (String × List OddsSnapshot) → Option (List ArbOutcome)
  | [] => some []
  | (name, snaps) :: rest =>
    match snaps with
    | [] => none
    | s :: ss =>
      (best_outcomes rest).map (fun bs =>
        { outcome_name := name, best_price := (ss.foldl pyMaxStep s).price,
          bookmaker_key := (ss.foldl pyMaxStep s).bookmaker_key,
          bookmaker_name := (ss.foldl pyMaxStep s).bookmaker_name } :: bs)

/-- `sum(Decimal("1") / o.best_price for o in best_outcomes)`
(arbitrage.py 97). -/
def total_implied_of (outs : List ArbOutcome) : ℚ :=
  (outs.map (fun o => 1 / o.best_price)).sum

/-- The same sum expressed over the raw input mapping: one term
`1 / best_price` per outcome. -/
def input_implied_sum (odds : List (String × List OddsSnapshot)) : ℚ :=
  (odds.map (fun p => 1 / best_price_of p.2)).sum

/-- `find_arbitrage` (arbitrage.py 57–112). The result is wrapped in
`Except Unit`: a best price of exactly `0` would make
`Decimal("1") / o.best_price` raise `DivisionByZero`, modelled by
`.error ()`. -/
def find_arbitrage (event_id home_team away_team market_type : String)
    (odds_by_outcome : List (String × List OddsSnapshot))
    (min_profit_pct : ℚ) : Except Unit (Option ArbOpportunity) :=
  if odds_by_outcome.length < 2 then .ok none
  else
    match best_outcomes odds_by_outcome with
    | none => .ok none
    | some outs =>
      if outs.any (fun o => decide (o.best_price = 0)) then .error ()
      else
        if total_implied_of outs < 1 then
          if min_profit_pct ≤ (1 - total_implied_of outs) * 100 then
            .ok (some { event_id := event_id, home_team := home_team,
                        away_team := away_team, market_type := market_type,
                        outcomes := outs,
                        profit_pct := roundDp 4 ((1 - total_implied_of outs) * 100),
                        total_implied_prob := roundDp 6 (total_implied_of outs) })
          else .ok none
        else .ok none

/-- The loop of `ArbOpportunity.stake_allocation` (arbitrage.py 38–42):
`.error ()` models the `DivisionByZero` raised when an outcome's best
price or the stored total implied probability is zero. -/
def alloc_list (total_implied_prob total_stake : ℚ) :
    List ArbOutcome → Except Unit (List (String × ℚ))
  | [] => .ok []
  | oc :: rest =>
    if oc.best_price = 0 ∨ total_implied_prob = 0 then .error ()
    else
      (alloc_list total_implied_prob total_stake rest).map (fun l =>
        (oc.outcome_name,
          roundDp 2 (1 / oc.best_price / total_implied_prob * total_stake)) :: l)

/-- `ArbOpportunity.stake_allocation` (arbitrage.py 36–43); the Python
dict of allocations is kept as an association list in outcome order. -/
def stake_allocation (o : ArbOpportunity) (total_stake : ℚ) :
    Except Unit (List (String × ℚ)) :=
  alloc_list o.total_implied_prob total_stake o.outcomes

/- ### Helper lemmas about the best-price selection -/

theorem price_le_foldl_pyMaxStep (t : List OddsSnapshot) :
    ∀ s : OddsSnapshot, s.price ≤ (t.foldl pyMaxStep s).price := by
  induction t with
  | nil => intro s; exact le_refl _
  | cons x t ih =>
    intro s
    rw [List.foldl_cons]
    refine le_trans ?_ (ih (pyMaxStep s x))
    unfold pyMaxStep
    split_ifs with h
    · exact le_of_lt h
    · exact le_refl _

theorem find?_first_max (t : List OddsSnapshot) :
    ∀ s : OddsSnapshot,
      (s :: t).find? (fun x => decide (x.price = (t.foldl pyMaxStep s).price))
        = some (t.foldl pyMaxStep s) := by
  induction t with
  | nil =>
    intro s
    simp [List.find?]
  | cons x t ih =>
    intro s
    rw [List.foldl_cons]
    by_cases hc : s.price < x.price
    · have hs' : pyMaxStep s x = x := by unfold pyMaxStep; rw [if_pos hc]
      rw [hs']
      have hlt : s.price < (t.foldl pyMaxStep x).price :=
        lt_of_lt_of_le hc (price_le_foldl_pyMaxStep t x)
      have hps : decide (s.price = (t.foldl pyMaxStep x).price) = false :=
        decide_eq_false (ne_of_lt hlt)
      simp only [List.find?_cons, hps]
      exact ih x
    · have hs' : pyMaxStep s x = s := by unfold pyMaxStep; rw [if_neg hc]
      rw [hs']
      have hih := ih s
      by_cases hps : s.price = (t.foldl pyMaxStep s).price
      · have hd : decide (s.price = (t.foldl pyMaxStep s).price) = true :=
          decide_eq_true hps
        simp only [List.find?_cons, hd] at hih ⊢
        exact hih
      · have hd : decide (s.price = (t.foldl pyMaxStep s).price) = false :=
          decide_eq_false hps
        have hlt : s.price < (t.foldl pyMaxStep s).price :=
          lt_of_le_of_ne (price_le_foldl_pyMaxStep t s) hps
        have hdx : decide (x.price = (t.foldl pyMaxStep s).price) = false :=
          decide_eq_false (ne_of_lt (lt_of_le_of_lt (not_lt.mp hc) hlt))
        simp only [List.find?_cons, hd, hdx] at hih ⊢
        exact hih

/-- The `ArbOutcome` record built by `find_arbitrage` for one input entry. -/
def arb_outcome_of (p : String × List OddsSnapshot) : ArbOutcome :=
  { outcome_name := p.1, best_price := best_price_of p.2,
    bookmaker_key := (bestSnap p.2).bookmaker_key,
    bookmaker_name := (bestSnap p.2).bookmaker_name }

theorem best_outcomes_eq_map (odds : List (String × List OddsSnapshot))
    (hnon : ∀ p ∈ odds, p.2 ≠ []) :
    best_outcomes odds = some (odds.map arb_outcome_of) := by
  induction odds with
  | nil => rfl
  | cons p rest ih =>
    obtain ⟨name, snaps⟩ := p
    match hs : snaps with
    | [] => exact absurd rfl (hnon (name, []) (by simp))
    | s :: ss =>
      rw [best_outcomes]
      rw [ih (fun q hq => hnon q (List.mem_cons_of_mem _ hq))]
      simp [arb_outcome_of, best_price_of, bestSnap]

theorem best_outcomes_eq_none (odds : List (String × List OddsSnapshot))
    (h : ∃ p ∈ odds, p.2 = []) : best_outcomes odds = none := by
  induction odds with
  | nil => simp at h
  | cons p rest ih =>
    obtain ⟨q, hq, hq2⟩ := h
    rcases List.mem_cons.mp hq with heq | hmem
    · obtain ⟨name, snaps⟩ := p
      have : snaps = [] := by rw [heq] at hq2; exact hq2
      subst this
      rfl
    · obtain ⟨name, snaps⟩ := p
      cases snaps with
      | nil => rfl
      | cons s ss =>
        rw [best_outcomes, ih ⟨q, hmem, hq2⟩]
        rfl

theorem best_outcomes_some_nonempty (odds : List (String × List OddsSnapshot))
    (outs : List ArbOutcome) (h : best_outcomes odds = some outs) :
    ∀ p ∈ odds, p.2 ≠ [] := by
  intro p hp hp2
  rw [best_outcomes_eq_none odds ⟨p, hp, hp2⟩] at h
  exact Option.noConfusion h

theorem total_implied_of_map (odds : List (String × List OddsSnapshot)) :
    total_implied_of (odds.map arb_outcome_of) = input_implied_sum odds := by
  unfold total_implied_of input_implied_sum
  rw [List.map_map]
  rfl

theorem find_arbitrage_ok_some {e h a m : String}
    {odds : List (String × List OddsSnapshot)} {minp : ℚ} {o : ArbOpportunity}
    (hh : find_arbitrage e h a m odds minp = .ok (some o)) :
    2 ≤ odds.length ∧ best_outcomes odds = some o.outcomes ∧
    (∀ oc ∈ o.outcomes, oc.best_price ≠ 0) ∧
    total_implied_of o.outcomes < 1 ∧
    minp ≤ (1 - total_implied_of o.outcomes) * 100 ∧
    o.profit_pct = roundDp 4 ((1 - total_implied_of o.outcomes) * 100) ∧
    o.total_implied_prob = roundDp 6 (total_implied_of o.outcomes) := by
  unfold find_arbitrage at hh
  by_cases h1 : odds.length < 2
  · rw [if_pos h1] at hh; exact absurd hh (by simp)
  rw [if_neg h1] at hh
  cases hbo : best_outcomes odds with
  | none => rw [hbo] at hh; exact absurd hh (by simp)
  | some outs =>
    rw [hbo] at hh
    dsimp only at hh
    by_cases h2 : outs.any (fun oc => decide (oc.best_price = 0)) = true
    · rw [if_pos h2] at hh; exact absurd hh (by simp)
    rw [if_neg h2] at hh
    by_cases h3 : total_implied_of outs < 1
    case neg => rw [if_neg h3] at hh; exact absurd hh (by simp)
    rw [if_pos h3] at hh
    by_cases h4 : minp ≤ (1 - total_implied_of outs) * 100
    case neg => rw [if_neg h4] at hh; exact absurd hh (by simp)
    rw [if_pos h4] at hh
    have ho : (⟨e, h, a, m, outs, roundDp 4 ((1 - total_implied_of outs) * 100),
        roundDp 6 (total_implied_of outs)⟩ : ArbOpportunity) = o := by
      have hq := hh
      simp only [Except.ok.injEq, Option.some.injEq] at hq
      exact hq
    subst ho
    refine ⟨Nat.le_of_not_lt h1, rfl, ?_, h3, h4, rfl, rfl⟩
    intro oc hoc hz
    exact h2 (List.any_eq_true.mpr ⟨oc, hoc, decide_eq_true hz⟩)

theorem map_arb_any_zero_false (odds : List (String × List OddsSnapshot))
    (hnz : ∀ p ∈ odds, best_price_of p.2 ≠ 0) :
    (odds.map arb_outcome_of).any (fun oc => decide (oc.best_price = 0)) = false := by
  rw [List.any_eq_false]
  intro oc hoc
  simp only [List.mem_map] at hoc
  obtain ⟨p, hp, rfl⟩ := hoc
  simp only [decide_eq_true_eq]
  exact fun hz => hnz p hp (by simpa [arb_outcome_of] using hz)

theorem find_arbitrage_eq_of (e h a m : String)
    (odds : List (String × List OddsSnapshot)) (minp : ℚ)
    (h2 : 2 ≤ odds.length) (hnon : ∀ p ∈ odds, p.2 ≠ [])
    (hnz : ∀ p ∈ odds, best_price_of p.2 ≠ 0)
    (hlt : input_implied_sum odds < 1) :
    find_arbitrage e h a m odds minp =
      if minp ≤ (1 - input_implied_sum odds) * 100 then
        .ok (some ⟨e, h, a, m, odds.map arb_outcome_of,
          roundDp 4 ((1 - input_implied_sum odds) * 100),
          roundDp 6 (input_implied_sum odds)⟩)
      else .ok none := by
  unfold find_arbitrage
  rw [if_neg (not_lt.mpr h2), best_outcomes_eq_map odds hnon]
  dsimp only
  have hany : ¬((odds.map arb_outcome_of).any
      (fun oc => decide (oc.best_price = 0)) = true) := by
    rw [map_arb_any_zero_false odds hnz]
    simp
  rw [if_neg hany, total_implied_of_map, if_pos hlt]

/-- C6: for every input to `find_arbitrage` in which the outcome mapping has
fewer than 2 entries, or some outcome's snapshot list is empty, or the summed
implied probability over best prices is at least 1 (the sum being well
defined, i.e. no zero best price), `find_arbitrage` returns the absent result
(`None`) and raises no exception. -/
theorem find_arbitrage_degenerate_none (e h a m : String)
    (odds : List (String × List OddsSnapshot)) (minp : ℚ)
    (hdeg : odds.length < 2 ∨ (∃ p ∈ odds, p.2 = []) ∨
      ((∀ p ∈ odds, best_price_of p.2 ≠ 0) ∧ 1 ≤ input_implied_sum odds)) :
    find_arbitrage e h a m odds minp = .ok none := by
  rcases hdeg with h1 | h2 | ⟨hnz, hge⟩
  · unfold find_arbitrage
    rw [if_pos h1]
  · unfold find_arbitrage
    by_cases h1 : odds.length < 2
    · rw [if_pos h1]
    rw [if_neg h1, best_outcomes_eq_none odds h2]
  · unfold find_arbitrage
    by_cases h1 : odds.length < 2
    · rw [if_pos h1]
    rw [if_neg h1]
    by_cases hne : ∃ p ∈ odds, p.2 = []
    · rw [best_outcomes_eq_none odds hne]
    push_neg at hne
    rw [best_outcomes_eq_map odds hne]
    dsimp only
    have hany : ¬((odds.map arb_outcome_of).any
        (fun oc => decide (oc.best_price = 0)) = true) := by
      rw [map_arb_any_zero_false odds hnz]
      simp
    rw [if_neg hany, total_implied_of_map, if_neg (not_lt.mpr hge)]

/-- The spec's overround example: prices `{A: 1.80, B: 2.00}`. -/
def overroundOdds : List (String × List OddsSnapshot) :=
  [("A", [⟨"b1", "B1", "A", 9/5, none⟩]), ("B", [⟨"b2", "B2", "B", 2, none⟩])]

/-- Witness for C6: the overround market `{A: 1.80, B: 2.00}` has implied
sum 19/18 ≥ 1, and `find_arbitrage` reports no opportunity. -/
theorem find_arbitrage_degenerate_none_witness :
    (1 ≤ input_implied_sum overroundOdds) ∧
    find_arbitrage "ev" "H" "A" "h2h" overroundOdds 0 = .ok none := by
  have hsum : 1 ≤ input_implied_sum overroundOdds := by
    norm_num [input_implied_sum, overroundOdds, best_price_of, bestSnap]
  refine ⟨hsum,
    find_arbitrage_degenerate_none _ _ _ _ _ _ (Or.inr (Or.inr ⟨?_, hsum⟩))⟩
  intro p hp
  simp only [overroundOdds, List.mem_cons, List.not_mem_nil, or_false] at hp
  rcases hp with rfl | rfl
  · norm_num [best_price_of, bestSnap]
  · norm_num [best_price_of, bestSnap]

theorem input_implied_sum_set_lt (odds : List (String × List OddsSnapshot)) :
    ∀ (i : ℕ) (hi : i < odds.length) (p' : String × List OddsSnapshot),
      0 < best_price_of odds[i].2 →
      best_price_of odds[i].2 < best_price_of p'.2 →
      input_implied_sum (odds.set i p') < input_implied_sum odds := by
  induction odds with
  | nil =>
    intro i hi
    simp at hi
  | cons q rest ih =>
    intro i hi p' hpos hlt
    cases i with
    | zero =>
      simp only [List.set_cons_zero]
      unfold input_implied_sum
      simp only [List.map_cons, List.sum_cons]
      have hq : 1 / best_price_of p'.2 < 1 / best_price_of q.2 := by
        apply one_div_lt_one_div_of_lt
        · simpa using hpos
        · simpa using hlt
      linarith
    | succ j =>
      simp only [List.set_cons_succ]
      have hj : j < rest.length := by simpa using hi
      have hrec := ih j hj p' (by simpa using hpos) (by simpa using hlt)
      unfold input_implied_sum at hrec ⊢
      simp only [List.map_cons, List.sum_cons]
      linarith

/-- C5: for every `find_arbitrage` input with at least two outcomes, replacing
one outcome's snapshot list by one whose best (maximum) price is strictly
larger strictly decreases the summed implied probability, and the computed
(unrounded) profit percentage `(1 − sum) × 100` never decreases. -/
theorem arb_profit_monotone_best_price
    (odds : List (String × List OddsSnapshot)) (i : ℕ) (hi : i < odds.length)
    (q p' : String × List OddsSnapshot) (hq : odds[i] = q)
    (_hlen : 2 ≤ odds.length)
    (hcur : 0 < best_price_of q.2)
    (hgt : best_price_of q.2 < best_price_of p'.2) :
    input_implied_sum (odds.set i p') < input_implied_sum odds ∧
    (1 - input_implied_sum odds) * 100
      ≤ (1 - input_implied_sum (odds.set i p')) * 100 := by
  subst hq
  have h1 := input_implied_sum_set_lt odds i hi p' hcur hgt
  exact ⟨h1, by linarith⟩

/-- A two-outcome market with best prices 2 and 2. -/
def evenOdds : List (String × List OddsSnapshot) :=
  [("A", [⟨"b1", "B1", "A", 2, none⟩]), ("B", [⟨"b2", "B2", "B", 2, none⟩])]

/-- Witness for C5: raising outcome A's best price from 2 to 3 strictly
lowers the implied sum. -/
theorem arb_profit_monotone_best_price_witness :
    (0:ℚ) < best_price_of [⟨"b1", "B1", "A", 2, none⟩] ∧
    best_price_of [⟨"b1", "B1", "A", 2, none⟩]
      < best_price_of [⟨"b3", "B3", "A", 3, none⟩] ∧
    input_implied_sum (evenOdds.set 0 ("A", [⟨"b3", "B3", "A", 3, none⟩]))
      < input_implied_sum evenOdds := by
  have hcur : (0:ℚ) < best_price_of [⟨"b1", "B1", "A", 2, none⟩] := by
    norm_num [best_price_of, bestSnap]
  have hgt : best_price_of [⟨"b1", "B1", "A", 2, none⟩]
      < best_price_of [⟨"b3", "B3", "A", 3, none⟩] := by
    norm_num [best_price_of, bestSnap]
  refine ⟨hcur, hgt, ?_⟩
  exact (arb_profit_monotone_best_price evenOdds 0 (by norm_num [evenOdds])
    ("A", [⟨"b1", "B1", "A", 2, none⟩]) ("A", [⟨"b3", "B3", "A", 3, none⟩])
    (by norm_num [evenOdds]) (by norm_num [evenOdds]) hcur hgt).1

theorem alloc_list_sum_bound (y T : ℚ) :
    ∀ (outs : List ArbOutcome) (l : List (String × ℚ)),
      alloc_list y T outs = .ok l →
      |(l.map (fun pr => pr.2)).sum
          - ((outs.map (fun oc => 1 / oc.best_price / y * T)).sum)|
        ≤ outs.length * (1/200) := by
  intro outs
  induction outs with
  | nil =>
    intro l hl
    have : l = [] := by
      unfold alloc_list at hl
      simpa using hl.symm
    subst this
    simp
  | cons oc rest ih =>
    intro l hl
    unfold alloc_list at hl
    by_cases hc : oc.best_price = 0 ∨ y = 0
    · rw [if_pos hc] at hl
      exact absurd hl (by simp)
    rw [if_neg hc] at hl
    cases hr : alloc_list y T rest with
    | error u =>
      rw [hr] at hl
      exact absurd hl (by simp [Except.map])
    | ok l' =>
      rw [hr] at hl
      have hll : (oc.outcome_name,
          roundDp 2 (1 / oc.best_price / y * T)) :: l' = l := by
        simpa [Except.map] using hl
      subst hll
      simp only [List.map_cons, List.sum_cons, List.length_cons]
      have h1 := abs_roundDp_sub 2 (1 / oc.best_price / y * T)
      have h2 := ih l' hr
      have habs : |roundDp 2 (1 / oc.best_price / y * T)
          + (l'.map (fun pr => pr.2)).sum
          - (1 / oc.best_price / y * T
            + (rest.map (fun oc => 1 / oc.best_price / y * T)).sum)|
          ≤ |roundDp 2 (1 / oc.best_price / y * T) - 1 / oc.best_price / y * T|
            + |(l'.map (fun pr => pr.2)).sum
              - (rest.map (fun oc => 1 / oc.best_price / y * T)).sum| := by
        have hrw : roundDp 2 (1 / oc.best_price / y * T)
            + (l'.map (fun pr => pr.2)).sum
            - (1 / oc.best_price / y * T
              + (rest.map (fun oc => 1 / oc.best_price / y * T)).sum)
            = (roundDp 2 (1 / oc.best_price / y * T) - 1 / oc.best_price / y * T)
              + ((l'.map (fun pr => pr.2)).sum
                - (rest.map (fun oc => 1 / oc.best_price / y * T)).sum) := by
          ring
        rw [hrw]
        exact abs_add _ _
      have h1' : |roundDp 2 (1 / oc.best_price / y * T)
          - 1 / oc.best_price / y * T| ≤ 1/200 := by
        have : (1:ℚ) / (2 * 10 ^ (2:ℕ)) = 1/200 := by norm_num
        rw [← this]
        exact abs_roundDp_sub 2 _
      have hcast : ((rest.length + 1 : ℕ) : ℚ) = (rest.length : ℚ) + 1 := by
        push_cast
        ring
      rw [hcast]
      calc |roundDp 2 (1 / oc.best_price / y * T)
            + (l'.map (fun pr => pr.2)).sum
            - (1 / oc.best_price / y * T
              + (rest.map (fun oc => 1 / oc.best_price / y * T)).sum)|
          ≤ 1/200 + (rest.length : ℚ) * (1/200) := by
            refine le_trans habs (add_le_add h1' h2)
        _ = ((rest.length : ℚ) + 1) * (1/200) := by ring

theorem alloc_unrounded_sum (y T : ℚ) (outs : List ArbOutcome) :
    (outs.map (fun oc => 1 / oc.best_price / y * T)).sum
      = total_implied_of outs * (T / y) := by
  unfold total_implied_of
  induction outs with
  | nil => simp
  | cons oc rest ih =>
    simp only [List.map_cons, List.sum_cons, ih]
    ring

/-- C4 (amended): for every `ArbOpportunity` returned by `find_arbitrage`
with positive stored total implied probability, and every positive total
stake `T`, the allocation sum differs from `T` by at most
`n × 0.005 + (T / total_implied_prob) × 5×10⁻⁷` where `n` is the number of
outcomes; the flat `0.1` tolerance of the original claim does not hold in
general. -/
theorem stake_allocation_sum_error_bound (e h a m : String)
    (odds : List (String × List OddsSnapshot)) (minp T : ℚ)
    (o : ArbOpportunity) (l : List (String × ℚ))
    (harb : find_arbitrage e h a m odds minp = .ok (some o))
    (hy : 0 < o.total_implied_prob) (hT : 0 < T)
    (hl : stake_allocation o T = .ok l) :
    |(l.map (fun pr => pr.2)).sum - T|
      ≤ o.outcomes.length * (1/200)
        + T / o.total_implied_prob * (1/2000000) := by
  obtain ⟨-, -, -, -, -, -, hrel⟩ := find_arbitrage_ok_some harb
  have hyne : o.total_implied_prob ≠ 0 := ne_of_gt hy
  unfold stake_allocation at hl
  have hb1 := alloc_list_sum_bound o.total_implied_prob T o.outcomes l hl
  have hb2 := alloc_unrounded_sum o.total_implied_prob T o.outcomes
  have hxy : |total_implied_of o.outcomes - o.total_implied_prob|
      ≤ 1/2000000 := by
    have hd := abs_roundDp_sub 6 (total_implied_of o.outcomes)
    rw [← hrel] at hd
    rw [abs_sub_comm] at hd
    calc |total_implied_of o.outcomes - o.total_implied_prob|
        ≤ 1 / (2 * 10 ^ (6:ℕ)) := hd
      _ = 1/2000000 := by norm_num
  have h3 : |total_implied_of o.outcomes * (T / o.total_implied_prob) - T|
      = T / o.total_implied_prob
        * |total_implied_of o.outcomes - o.total_implied_prob| := by
    have hrw : total_implied_of o.outcomes * (T / o.total_implied_prob) - T
        = (T / o.total_implied_prob)
          * (total_implied_of o.outcomes - o.total_implied_prob) := by
      field_simp
      ring
    rw [hrw, abs_mul, abs_of_pos (div_pos hT hy)]
  have h4 : |total_implied_of o.outcomes * (T / o.total_implied_prob) - T|
      ≤ T / o.total_implied_prob * (1/2000000) := by
    rw [h3]
    exact mul_le_mul_of_nonneg_left hxy (le_of_lt (div_pos hT hy))
  calc |(l.map (fun pr => pr.2)).sum - T|
      ≤ |(l.map (fun pr => pr.2)).sum
          - ((o.outcomes.map
            (fun oc => 1 / oc.best_price / o.total_implied_prob * T)).sum)|
        + |((o.outcomes.map
            (fun oc => 1 / oc.best_price / o.total_implied_prob * T)).sum)
          - T| := abs_sub_le _ _ _
    _ ≤ o.outcomes.length * (1/200)
        + T / o.total_implied_prob * (1/2000000) := by
        refine add_le_add hb1 ?_
        rw [hb2]
        exact h4

/-- Two outcomes both best-priced at 1999: a huge arbitrage whose implied
sum 2/1999 rounds (at 6 decimals) with a relatively large error. -/
def cexOdds : List (String × List OddsSnapshot) :=
  [("A", [⟨"b1", "B1", "A", 1999, none⟩]), ("B", [⟨"b2", "B2", "B", 1999, none⟩])]

/-- The opportunity `find_arbitrage` returns for `cexOdds`. -/
def cexOpp : ArbOpportunity :=
  ⟨"ev", "H", "A", "h2h",
    [⟨"A", 1999, "b1", "B1"⟩, ⟨"B", 1999, "b2", "B2"⟩],
    998999/10000, 1001/1000000⟩

/-- C4 counterexample: for the opportunity detected on `cexOdds` and total
stake `T = 1000`, both allocations are 499.75, so the allocation sum 999.50
misses the stake by 0.50 > 0.1, refuting the flat 0.1 tolerance. -/
theorem stake_allocation_sum_counterexample :
    find_arbitrage "ev" "H" "A" "h2h" cexOdds 0 = .ok (some cexOpp) ∧
    (0:ℚ) < 1000 ∧
    stake_allocation cexOpp 1000 = .ok [("A", 1999/4), ("B", 1999/4)] ∧
    ¬ (|((1999:ℚ)/4 + 1999/4) - 1000| ≤ 1/10) := by
  have hsum : input_implied_sum cexOdds = 2/1999 := by
    norm_num [input_implied_sum, cexOdds, best_price_of, bestSnap]
  have hr4 : roundDp 4 ((1 - (2:ℚ)/1999) * 100) = 998999/10000 := by
    have h := roundDp_eq_div 4 ((1 - (2:ℚ)/1999) * 100) 998999
      (by norm_num) (by norm_num)
    rw [h]
    norm_num
  have hr6 : roundDp 6 ((2:ℚ)/1999) = 1001/1000000 := by
    have h := roundDp_eq_div 6 ((2:ℚ)/1999) 1001 (by norm_num) (by norm_num)
    rw [h]
    norm_num
  have hralloc : roundDp 2 ((1000000000:ℚ)/2000999) = 1999/4 := by
    have h := roundDp_eq_div 2 ((1000000000:ℚ)/2000999) 49975
      (by norm_num) (by norm_num)
    rw [h]
    norm_num
  refine ⟨?_, by norm_num, ?_, ?_⟩
  · rw [find_arbitrage_eq_of "ev" "H" "A" "h2h" cexOdds 0 (by norm_num [cexOdds])
      ?hnon ?hnz (by rw [hsum]; norm_num)]
    case hnon =>
      intro p hp
      simp only [cexOdds, List.mem_cons, List.not_mem_nil, or_false] at hp
      rcases hp with rfl | rfl <;> simp
    case hnz =>
      intro p hp
      simp only [cexOdds, List.mem_cons, List.not_mem_nil, or_false] at hp
      rcases hp with rfl | rfl <;> norm_num [best_price_of, bestSnap]
    rw [hsum]
    rw [if_pos (by norm_num : (0:ℚ) ≤ (1 - (2:ℚ)/1999) * 100)]
    rw [hr4, hr6]
    simp [cexOdds, cexOpp, arb_outcome_of, best_price_of, bestSnap]
  · norm_num [stake_allocation, cexOpp, alloc_list, Except.map, hralloc]
  · rw [show (1999:ℚ)/4 + 1999/4 - 1000 = -(1/2) by norm_num, abs_neg,
      abs_of_pos (by norm_num : (0:ℚ) < 1/2)]
    norm_num

/-- A clean two-outcome arbitrage market with best prices 2 and 4. -/
def wOdds : List (String × List OddsSnapshot) :=
  [("A", [⟨"b1", "B1", "A", 2, none⟩]), ("B", [⟨"b2", "B2", "B", 4, none⟩])]

/-- The opportunity `find_arbitrage` returns for `wOdds`. -/
def wOpp : ArbOpportunity :=
  ⟨"ev", "H", "A", "h2h",
    [⟨"A", 2, "b1", "B1"⟩, ⟨"B", 4, "b2", "B2"⟩], 25, 3/4⟩

theorem find_arbitrage_wOdds : find_arbitrage "ev" "H" "A" "h2h" wOdds 0
    = .ok (some wOpp) := by
  have hsum : input_implied_sum wOdds = 3/4 := by
    norm_num [input_implied_sum, wOdds, best_price_of, bestSnap]
  have hr4 : roundDp 4 ((1 - (3:ℚ)/4) * 100) = (1 - (3:ℚ)/4) * 100 :=
    roundDp_eq_self 4 _ 250000 (by norm_num)
  have hr6 : roundDp 6 ((3:ℚ)/4) = (3:ℚ)/4 :=
    roundDp_eq_self 6 _ 750000 (by norm_num)
  rw [find_arbitrage_eq_of "ev" "H" "A" "h2h" wOdds 0 (by norm_num [wOdds])
    ?hnon ?hnz (by rw [hsum]; norm_num)]
  case hnon =>
    intro p hp
    simp only [wOdds, List.mem_cons, List.not_mem_nil, or_false] at hp
    rcases hp with rfl | rfl <;> simp
  case hnz =>
    intro p hp
    simp only [wOdds, List.mem_cons, List.not_mem_nil, or_false] at hp
    rcases hp with rfl | rfl <;> norm_num [best_price_of, bestSnap]
  rw [hsum]
  rw [if_pos (by norm_num : (0:ℚ) ≤ (1 - (3:ℚ)/4) * 100)]
  rw [hr4, hr6]
  simp [wOdds, wOpp, arb_outcome_of, best_price_of, bestSnap]
  norm_num

/-- Witness for C4: the opportunity on `wOdds` with stake 100 allocates
66.67 and 33.33; the sum 100.00 is within the proven error bound. -/
theorem stake_allocation_sum_error_bound_witness :
    find_arbitrage "ev" "H" "A" "h2h" wOdds 0 = .ok (some wOpp) ∧
    (0:ℚ) < wOpp.total_implied_prob ∧
    stake_allocation wOpp 100 = .ok [("A", 6667/100), ("B", 3333/100)] ∧
    |(([("A", (6667:ℚ)/100), ("B", (3333:ℚ)/100)].map (fun pr => pr.2)).sum)
        - 100|
      ≤ wOpp.outcomes.length * (1/200)
        + 100 / wOpp.total_implied_prob * (1/2000000) := by
  have hy : (0:ℚ) < wOpp.total_implied_prob := by norm_num [wOpp]
  have hra : roundDp 2 ((200:ℚ)/3) = 6667/100 := by
    have h := roundDp_eq_div 2 ((200:ℚ)/3) 6667 (by norm_num) (by norm_num)
    rw [h]
    norm_num
  have hrb : roundDp 2 ((100:ℚ)/3) = 3333/100 := by
    have h := roundDp_eq_div 2 ((100:ℚ)/3) 3333 (by norm_num) (by norm_num)
    rw [h]
    norm_num
  have halloc : stake_allocation wOpp 100 = .ok [("A", 6667/100), ("B", 3333/100)] := by
    norm_num [stake_allocation, wOpp, alloc_list, Except.map, hra, hrb]
  exact ⟨find_arbitrage_wOdds, hy, halloc,
    stake_allocation_sum_error_bound "ev" "H" "A" "h2h" wOdds 0 100 wOpp _
      find_arbitrage_wOdds hy (by norm_num) halloc⟩

/-- C2 (amended): under the claim's preconditions (≥ 2 outcomes, no empty
snapshot list, implied sum < 1, and best prices nonzero so the sum is well
defined), an opportunity is returned iff the UNROUNDED profit percentage
`(1 − sum) × 100` is ≥ `min_profit_pct`; the opportunity that is returned
carries the 4-decimal rounded profit percentage. The original claim's
comparison of the rounded value against the threshold does not match the
code. -/
theorem arb_threshold_unrounded (e h a m : String)
    (odds : List (String × List OddsSnapshot)) (minp : ℚ)
    (hlen : 2 ≤ odds.length) (hnon : ∀ p ∈ odds, p.2 ≠ [])
    (hnz : ∀ p ∈ odds, best_price_of p.2 ≠ 0)
    (hlt : input_implied_sum odds < 1) :
    ((∃ o, find_arbitrage e h a m odds minp = .ok (some o)) ↔
      minp ≤ (1 - input_implied_sum odds) * 100) ∧
    (∀ o, find_arbitrage e h a m odds minp = .ok (some o) →
      o.profit_pct = roundDp 4 ((1 - input_implied_sum odds) * 100)) := by
  have heq := find_arbitrage_eq_of e h a m odds minp hlen hnon hnz hlt
  constructor
  · constructor
    · rintro ⟨o, ho⟩
      by_contra hmin
      rw [heq, if_neg hmin] at ho
      exact absurd ho (by simp)
    · intro hmin
      exact ⟨_, by rw [heq, if_pos hmin]⟩
  · intro o ho
    rw [heq] at ho
    by_cases hmin : minp ≤ (1 - input_implied_sum odds) * 100
    · rw [if_pos hmin] at ho
      simp only [Except.ok.injEq, Option.some.injEq] at ho
      rw [← ho]
    · rw [if_neg hmin] at ho
      exact absurd ho (by simp)

/-- Witness for C2: on the market `wOdds` (best prices 2 and 4, implied
sum 3/4) with threshold 0, an opportunity exists iff 0 ≤ 25. -/
theorem arb_threshold_unrounded_witness :
    input_implied_sum wOdds < 1 ∧
    ((∃ o, find_arbitrage "ev" "H" "A" "h2h" wOdds 0 = .ok (some o)) ↔
      (0:ℚ) ≤ (1 - input_implied_sum wOdds) * 100) := by
  have hlt : input_implied_sum wOdds < 1 := by
    norm_num [input_implied_sum, wOdds, best_price_of, bestSnap]
  refine ⟨hlt, (arb_threshold_unrounded "ev" "H" "A" "h2h" wOdds 0
    (by norm_num [wOdds]) ?hnon ?hnz hlt).1⟩
  case hnon =>
    intro p hp
    simp only [wOdds, List.mem_cons, List.not_mem_nil, or_false] at hp
    rcases hp with rfl | rfl <;> simp
  case hnz =>
    intro p hp
    simp only [wOdds, List.mem_cons, List.not_mem_nil, or_false] at hp
    rcases hp with rfl | rfl <;> norm_num [best_price_of, bestSnap]

/-- Best prices 2 and 2.0202: the profit percentage 5050/10101 ≈ 0.49995 is
strictly below the threshold 0.5 but rounds to exactly 0.5000 at 4
decimals. -/
def cex2Odds : List (String × List OddsSnapshot) :=
  [("A", [⟨"b1", "B1", "A", 2, none⟩]),
   ("B", [⟨"b2", "B2", "B", 10101/5000, none⟩])]

/-- C2 counterexample: on `cex2Odds` with `min_profit_pct = 0.5` the
4-decimal rounded profit percentage equals the threshold 0.5, yet
`find_arbitrage` returns no opportunity, because the code compares the
unrounded value: the claimed `iff` with the rounded value is false. -/
theorem arb_rounded_threshold_counterexample :
    input_implied_sum cex2Odds < 1 ∧
    roundDp 4 ((1 - input_implied_sum cex2Odds) * 100) = 1/2 ∧
    find_arbitrage "ev" "H" "A" "h2h" cex2Odds (1/2) = .ok none := by
  have hsum : input_implied_sum cex2Odds = 20101/20202 := by
    norm_num [input_implied_sum, cex2Odds, best_price_of, bestSnap]
  have hr4 : roundDp 4 ((1 - (20101:ℚ)/20202) * 100) = 1/2 := by
    have h := roundDp_eq_div 4 ((1 - (20101:ℚ)/20202) * 100) 5000
      (by norm_num) (by norm_num)
    rw [h]
    norm_num
  refine ⟨by rw [hsum]; norm_num, by rw [hsum]; exact hr4, ?_⟩
  rw [find_arbitrage_eq_of "ev" "H" "A" "h2h" cex2Odds (1/2)
    (by norm_num [cex2Odds]) ?hnon ?hnz (by rw [hsum]; norm_num)]
  case hnon =>
    intro p hp
    simp only [cex2Odds, List.mem_cons, List.not_mem_nil, or_false] at hp
    rcases hp with rfl | rfl <;> simp
  case hnz =>
    intro p hp
    simp only [cex2Odds, List.mem_cons, List.not_mem_nil, or_false] at hp
    rcases hp with rfl | rfl <;> norm_num [best_price_of, bestSnap]
  rw [hsum]
  rw [if_neg (by norm_num : ¬((1:ℚ)/2 ≤ (1 - (20101:ℚ)/20202) * 100))]

/-- C9: whenever `find_arbitrage` returns an opportunity, the `ArbOutcome`
for each outcome is built from the FIRST snapshot in list order attaining
the maximal price: `find?` (which returns the earliest match) of the
predicate "price equals the best price" yields exactly the snapshot the
code selected, and the returned record copies that snapshot's bookmaker
key and name. -/
theorem arb_credits_first_max (e h a m : String)
    (odds : List (String × List OddsSnapshot)) (minp : ℚ) (o : ArbOpportunity)
    (harb : find_arbitrage e h a m odds minp = .ok (some o)) :
    o.outcomes.length = odds.length ∧
    ∀ (i : ℕ) (hi : i < odds.length),
      odds[i].2.find? (fun s => decide (s.price = best_price_of odds[i].2))
        = some (bestSnap odds[i].2) ∧
      o.outcomes[i]? = some ⟨odds[i].1, (bestSnap odds[i].2).price,
        (bestSnap odds[i].2).bookmaker_key,
        (bestSnap odds[i].2).bookmaker_name⟩ := by
  obtain ⟨-, hbo, -, -, -, -, -⟩ := find_arbitrage_ok_some harb
  have hnon := best_outcomes_some_nonempty odds o.outcomes hbo
  rw [best_outcomes_eq_map odds hnon] at hbo
  have houts : o.outcomes = odds.map arb_outcome_of := by
    injection hbo with hbo'
    exact hbo'.symm
  constructor
  · rw [houts, List.length_map]
  · intro i hi
    constructor
    · cases hsn : odds[i].2 with
      | nil => exact absurd hsn (hnon odds[i] (List.getElem_mem hi))
      | cons s ss =>
        have hfm := find?_first_max ss s
        simpa [best_price_of, bestSnap] using hfm
    · rw [houts]
      rw [List.getElem?_map]
      rw [List.getElem?_eq_getElem hi]
      simp [arb_outcome_of, best_price_of]

/-- Outcome A is priced 2 by both `b1` and `b2` (a tie at the maximum);
outcome B is priced 3 by `b3`. -/
def tieOdds : List (String × List OddsSnapshot) :=
  [("A", [⟨"b1", "B1", "A", 2, none⟩, ⟨"b2", "B2", "A", 2, none⟩]),
   ("B", [⟨"b3", "B3", "B", 3, none⟩])]

/-- The opportunity `find_arbitrage` returns for `tieOdds`: outcome A is
credited to `b1`, the first of the two tied bookmakers. -/
def tieOpp : ArbOpportunity :=
  ⟨"ev", "H", "A", "h2h",
    [⟨"A", 2, "b1", "B1"⟩, ⟨"B", 3, "b3", "B3"⟩],
    166667/10000, 833333/1000000⟩

/-- Witness for C9: on the tied market `tieOdds`, the returned opportunity
credits outcome A to bookmaker `b1`, the earliest maximal snapshot. -/
theorem arb_credits_first_max_witness :
    find_arbitrage "ev" "H" "A" "h2h" tieOdds 0 = .ok (some tieOpp) ∧
    tieOpp.outcomes[0]? = some ⟨"A", 2, "b1", "B1"⟩ := by
  have hsum : input_implied_sum tieOdds = 5/6 := by
    norm_num [input_implied_sum, tieOdds, best_price_of, bestSnap, pyMaxStep]
  have hr4 : roundDp 4 ((1 - (5:ℚ)/6) * 100) = 166667/10000 := by
    have hq := roundDp_eq_div 4 ((1 - (5:ℚ)/6) * 100) 166667
      (by norm_num) (by norm_num)
    rw [hq]
    norm_num
  have hr6 : roundDp 6 ((5:ℚ)/6) = 833333/1000000 := by
    have hq := roundDp_eq_div 6 ((5:ℚ)/6) 833333 (by norm_num) (by norm_num)
    rw [hq]
    norm_num
  have harb : find_arbitrage "ev" "H" "A" "h2h" tieOdds 0 = .ok (some tieOpp) := by
    rw [find_arbitrage_eq_of "ev" "H" "A" "h2h" tieOdds 0 (by norm_num [tieOdds])
      ?hnon ?hnz (by rw [hsum]; norm_num)]
    case hnon =>
      intro p hp
      simp only [tieOdds, List.mem_cons, List.not_mem_nil, or_false] at hp
      rcases hp with rfl | rfl <;> simp
    case hnz =>
      intro p hp
      simp only [tieOdds, List.mem_cons, List.not_mem_nil, or_false] at hp
      rcases hp with rfl | rfl <;> norm_num [best_price_of, bestSnap, pyMaxStep]
    rw [hsum]
    rw [if_pos (by norm_num : (0:ℚ) ≤ (1 - (5:ℚ)/6) * 100)]
    rw [hr4, hr6]
    simp [tieOdds, tieOpp, arb_outcome_of, best_price_of, bestSnap, pyMaxStep]
  refine ⟨harb, ?_⟩
  have h2 := (arb_credits_first_max "ev" "H" "A" "h2h" tieOdds 0 tieOpp harb).2 0
    (by norm_num [tieOdds])
  rw [h2.2]
  simp [tieOdds, bestSnap, pyMaxStep]

/- ### Line movement and CLV (`src/analysis/line_movement.py`) -/

/-- A price snapshot at a point in time (`OddsTimestamp`, line_movement.py
35–41); the `datetime` timestamp is embedded as an integer. -/
structure OddsTimestamp where
  price : ℚ
  point : Option ℚ
  scraped_at : ℤ
deriving DecidableEq

/-- A detected line movement (`LineMovement`, line_movement.py 14–32). -/
structure LineMovement where
  event_id : String
  home_team : String
  away_team : String
  bookmaker_key : String
  market_type : String
  outcome_name : String
  old_price : ℚ
  new_price : ℚ
  price_change : ℚ
  price_change_pct : ℚ
  old_point : Option ℚ
  new_point : Option ℚ
  point_change : Option ℚ
  old_timestamp : ℤ
  new_timestamp : ℤ
deriving DecidableEq

/-- The sort key relation of `sorted(history, key=lambda h: h.scraped_at)`. -/
def byTimestamp (x y : OddsTimestamp) : Prop := x.scraped_at ≤ y.scraped_at

instance : DecidableRel byTimestamp :=
  fun x y => Int.decLe x.scraped_at y.scraped_at

instance : IsTotal OddsTimestamp byTimestamp :=
  ⟨fun x y => Int.le_total x.scraped_at y.scraped_at⟩

instance : IsTrans OddsTimestamp byTimestamp :=
  ⟨fun _ _ _ hxy hyz => le_trans hxy hyz⟩

/-- `sorted(history, key=lambda h: h.scraped_at)` (line_movement.py 76):
Python's `sorted` is a stable sort by the key, and all stable sorts of the
same list by the same key coincide, so it is embedded as insertion sort. -/
def sort_history (history : List OddsTimestamp) : List OddsTimestamp :=
  List.insertionSort byTimestamp history

/-- The `LineMovement` record built for a qualifying consecutive pair
(line_movement.py 94–112). -/
def mk_line_movement (e h a b m oname : String)
    (old nxt : OddsTimestamp) : LineMovement :=
  { event_id := e, home_team := h, away_team := a, bookmaker_key := b,
    market_type := m, outcome_name := oname,
    old_price := old.price, new_price := nxt.price,
    price_change := roundDp 4 (nxt.price - old.price),
    price_change_pct := roundDp 4 ((nxt.price - old.price) / old.price * 100),
    old_point := old.point, new_point := nxt.point,
    point_change := match old.point, nxt.point with
      | some po, some pn => some (pn - po)
      | _, _ => none,
    old_timestamp := old.scraped_at, new_timestamp := nxt.scraped_at }

/-- The loop of `detect_line_movements` over consecutive sorted pairs
(line_movement.py 79–112): a pair whose earlier price is zero is skipped,
otherwise a movement is emitted when the absolute unrounded percentage
change reaches the threshold. -/
def detect_aux (e h a b m oname : String) (minPct : ℚ) :
    OddsTimestamp → List OddsTimestamp → List LineMovement
  | _, [] => []
  | old, nxt :: rest =>
    (if old.price = 0 then []
     else if minPct ≤ |(nxt.price - old.price) / old.price * 100| then
       [mk_line_movement e h a b m oname old nxt]
     else [])
    ++ detect_aux e h a b m oname minPct nxt rest

/-- `detect_line_movements` (line_movement.py 44–114). -/
def detect_line_movements (e h a b m oname : String)
    (history : List OddsTimestamp) (min_price_change_pct : ℚ) :
    List LineMovement :=
  if history.length < 2 then []
  else
    match sort_history history with
    | [] => []
    | s :: rest => detect_aux e h a b m oname min_price_change_pct s rest

/-- `calculate_clv` (line_movement.py 117–135): zero closing price is
guarded and yields 0, but a zero bet price with a nonzero closing price
reaches `Decimal("1") / bet_price` and raises, modelled by `.error ()`. -/
def calculate_clv (bet_price closing_price : ℚ) : Except Unit ℚ :=
  if closing_price = 0 then .ok 0
  else if bet_price = 0 then .error ()
  else
    .ok (roundDp 4 ((1 / closing_price - 1 / bet_price) / (1 / bet_price) * 100))

/-- Specification-side view: the list of consecutive pairs of a list. -/
def consecutive_pairs (l : List OddsTimestamp) :
    List (OddsTimestamp × OddsTimestamp) :=
  l.zip l.tail

/-- Specification-side view: the movement emitted for one consecutive
pair, if any. -/
def movement_of_pair (e h a b m oname : String) (minPct : ℚ)
    (pr : OddsTimestamp × OddsTimestamp) : Option LineMovement :=
  if pr.1.price = 0 then none
  else if minPct ≤ |(pr.2.price - pr.1.price) / pr.1.price * 100| then
    some (mk_line_movement e h a b m oname pr.1 pr.2)
  else none

theorem detect_aux_eq_filterMap (e h a b m oname : String) (minPct : ℚ)
    (rest : List OddsTimestamp) :
    ∀ s : OddsTimestamp,
      detect_aux e h a b m oname minPct s rest
        = (consecutive_pairs (s :: rest)).filterMap
            (movement_of_pair e h a b m oname minPct) := by
  induction rest with
  | nil =>
    intro s
    simp [detect_aux, consecutive_pairs]
  | cons nxt rest ih =>
    intro s
    have hcp : consecutive_pairs (s :: nxt :: rest)
        = (s, nxt) :: consecutive_pairs (nxt :: rest) := by
      simp [consecutive_pairs]
    rw [detect_aux, hcp, List.filterMap_cons, ih nxt]
    unfold movement_of_pair
    by_cases hz : s.price = 0
    · rw [if_pos hz]
      simp [hz]
    rw [if_neg hz]
    by_cases hth : minPct ≤ |(nxt.price - s.price) / s.price * 100|
    · rw [if_pos hth]
      simp only [if_neg hz, if_pos hth]
      simp
    · rw [if_neg hth]
      simp only [if_neg hz, if_neg hth]
      simp

/-- Snapshots 2.00 → 2.20 → 2.00: +10% then ≈ −9.09%, both beyond the
2% threshold. -/
def threeMoves : List OddsTimestamp :=
  [⟨2, none, 0⟩, ⟨11/5, none, 1⟩, ⟨2, none, 2⟩]

/-- C7: `detect_line_movements` sorts by timestamp ascending (the sorted
list is `byTimestamp`-sorted), returns `[]` for histories with fewer than
2 snapshots, and otherwise emits exactly one `LineMovement` per qualifying
consecutive sorted pair, never merging: the three-snapshot history
`threeMoves` with two threshold-exceeding deltas yields exactly two
records. -/
theorem detect_line_movements_pairs :
    (∀ (e h a b m oname : String) (history : List OddsTimestamp) (minPct : ℚ),
      detect_line_movements e h a b m oname history minPct =
        if history.length < 2 then []
        else (consecutive_pairs (sort_history history)).filterMap
          (movement_of_pair e h a b m oname minPct)) ∧
    (∀ history : List OddsTimestamp,
      List.Sorted byTimestamp (sort_history history)) ∧
    (detect_line_movements "e" "h" "a" "b" "m" "o" threeMoves 2).length = 2 := by
  have hmain : ∀ (e h a b m oname : String) (history : List OddsTimestamp)
      (minPct : ℚ),
      detect_line_movements e h a b m oname history minPct =
        if history.length < 2 then []
        else (consecutive_pairs (sort_history history)).filterMap
          (movement_of_pair e h a b m oname minPct) := by
    intro e h a b m oname history minPct
    unfold detect_line_movements
    by_cases hlen : history.length < 2
    · rw [if_pos hlen, if_pos hlen]
    rw [if_neg hlen, if_neg hlen]
    cases hs : sort_history history with
    | nil => simp [consecutive_pairs]
    | cons s rest => exact detect_aux_eq_filterMap e h a b m oname minPct rest s
  refine ⟨hmain, fun history => List.sorted_insertionSort byTimestamp history, ?_⟩
  have hsorted : sort_history threeMoves = threeMoves := by
    norm_num [sort_history, threeMoves, List.insertionSort, List.orderedInsert,
      byTimestamp]
  have ha1 : |((11:ℚ)/5 - 2) / 2 * 100| = 10 := by
    rw [show ((11:ℚ)/5 - 2) / 2 * 100 = 10 by norm_num]
    exact abs_of_pos (by norm_num)
  have ha2 : |((2:ℚ) - 11/5) / (11/5) * 100| = 100/11 := by
    rw [show ((2:ℚ) - 11/5) / (11/5) * 100 = -(100/11) by norm_num, abs_neg]
    exact abs_of_pos (by norm_num)
  rw [hmain]
  rw [if_neg (by norm_num [threeMoves])]
  rw [hsorted]
  rw [show consecutive_pairs threeMoves
      = [((⟨2, none, 0⟩ : OddsTimestamp), (⟨11/5, none, 1⟩ : OddsTimestamp)),
         ((⟨11/5, none, 1⟩ : OddsTimestamp), (⟨2, none, 2⟩ : OddsTimestamp))]
    by simp [consecutive_pairs, threeMoves]]
  rw [List.filterMap_cons, List.filterMap_cons]
  unfold movement_of_pair
  have ha3 : |(100:ℚ)/11| = 100/11 := abs_of_pos (by norm_num)
  norm_num [ha1, ha2, ha3]

/-- C3 counterexample: `calculate_clv(bet_price = 0, closing_price = 2)`
raises a division-by-zero error instead of returning zero, refuting "it
never raises a division-by-zero error for zero-price inputs". -/
theorem clv_zero_bet_price_counterexample :
    calculate_clv 0 2 = .error () ∧ calculate_clv 0 2 ≠ .ok 0 := by
  have hc : calculate_clv 0 2 = .error () := by
    unfold calculate_clv
    rw [if_neg (by norm_num : ¬((2:ℚ) = 0)), if_pos rfl]
  exact ⟨hc, by rw [hc]; simp⟩

/-- C3 (amended): `detect_line_movements` skips any consecutive pair whose
earlier price is zero, and `calculate_clv` returns zero when the closing
price is zero and succeeds whenever the bet price is also nonzero; but when
the bet price is zero and the closing price is nonzero, `calculate_clv`
raises a division-by-zero error. -/
theorem clv_zero_guard (bp cp : ℚ) (hcp : cp ≠ 0) :
    calculate_clv bp 0 = .ok 0 ∧
    calculate_clv 0 cp = .error () ∧
    (bp ≠ 0 → ∃ q, calculate_clv bp cp = .ok q) ∧
    (∀ (e h a b m oname : String) (minPct : ℚ) (old nxt : OddsTimestamp)
      (rest : List OddsTimestamp), old.price = 0 →
      detect_aux e h a b m oname minPct old (nxt :: rest)
        = detect_aux e h a b m oname minPct nxt rest) := by
  refine ⟨?_, ?_, ?_, ?_⟩
  · unfold calculate_clv
    rw [if_pos rfl]
  · unfold calculate_clv
    rw [if_neg hcp, if_pos rfl]
  · intro hbp
    unfold calculate_clv
    rw [if_neg hcp, if_neg hbp]
    exact ⟨_, rfl⟩
  · intro e h a b m oname minPct old nxt rest hz
    rw [detect_aux, if_pos hz]
    simp

/-- Witness for C3 (amended) at bet price 2, closing price 2. -/
theorem clv_zero_guard_witness :
    ((2:ℚ) ≠ 0) ∧ calculate_clv 2 0 = .ok 0 ∧ calculate_clv 0 2 = .error () := by
  have hc := clv_zero_guard 2 2 (by norm_num)
  exact ⟨by norm_num, hc.1, hc.2.1⟩

instance : IsAntisymm OddsTimestamp (fun x y => x.scraped_at < y.scraped_at) :=
  ⟨fun _ _ h1 h2 => absurd (h1.trans h2) (lt_irrefl _)⟩

theorem sort_history_perm_eq (l₁ l₂ : List OddsTimestamp) (hp : l₁.Perm l₂)
    (hd : l₁.Pairwise (fun x y => x.scraped_at ≠ y.scraped_at)) :
    sort_history l₁ = sort_history l₂ := by
  have hs₁ : List.Sorted byTimestamp (sort_history l₁) :=
    List.sorted_insertionSort byTimestamp l₁
  have hs₂ : List.Sorted byTimestamp (sort_history l₂) :=
    List.sorted_insertionSort byTimestamp l₂
  have hp₁ : (sort_history l₁).Perm l₁ := List.perm_insertionSort byTimestamp l₁
  have hp₂ : (sort_history l₂).Perm l₂ := List.perm_insertionSort byTimestamp l₂
  have hsym : ∀ {x y : OddsTimestamp},
      x.scraped_at ≠ y.scraped_at → y.scraped_at ≠ x.scraped_at :=
    fun hxy => hxy.symm
  have hd₁ : (sort_history l₁).Pairwise
      (fun x y => x.scraped_at ≠ y.scraped_at) :=
    (hp₁.pairwise_iff hsym).mpr hd
  have hd₂ : (sort_history l₂).Pairwise
      (fun x y => x.scraped_at ≠ y.scraped_at) :=
    (hp₂.pairwise_iff hsym).mpr ((hp.pairwise_iff hsym).mp hd)
  have hstrict₁ : (sort_history l₁).Pairwise
      (fun x y => x.scraped_at < y.scraped_at) :=
    (hs₁.and hd₁).imp (fun hxy => lt_of_le_of_ne hxy.1 hxy.2)
  have hstrict₂ : (sort_history l₂).Pairwise
      (fun x y => x.scraped_at < y.scraped_at) :=
    (hs₂.and hd₂).imp (fun hxy => lt_of_le_of_ne hxy.1 hxy.2)
  have hps : (sort_history l₁).Perm (sort_history l₂) :=
    hp₁.trans (hp.trans hp₂.symm)
  exact List.eq_of_perm_of_sorted hps hstrict₁ hstrict₂

/-- C10: for histories with pairwise distinct timestamps,
`detect_line_movements` is invariant under permutation of the input
snapshot list. -/
theorem detect_line_movements_perm_invariant (e h a b m oname : String)
    (minPct : ℚ) (l₁ l₂ : List OddsTimestamp) (hp : l₁.Perm l₂)
    (hd : l₁.Pairwise (fun x y => x.scraped_at ≠ y.scraped_at)) :
    detect_line_movements e h a b m oname l₁ minPct
      = detect_line_movements e h a b m oname l₂ minPct := by
  unfold detect_line_movements
  rw [hp.length_eq, sort_history_perm_eq l₁ l₂ hp hd]

/-- Witness for C10: a two-snapshot history and its reversal give the same
movements. -/
theorem detect_line_movements_perm_invariant_witness :
    ([(⟨2, none, 0⟩ : OddsTimestamp), ⟨3, none, 1⟩].Perm
      [⟨3, none, 1⟩, ⟨2, none, 0⟩]) ∧
    detect_line_movements "e" "h" "a" "b" "m" "o"
        [⟨2, none, 0⟩, ⟨3, none, 1⟩] 2
      = detect_line_movements "e" "h" "a" "b" "m" "o"
        [⟨3, none, 1⟩, ⟨2, none, 0⟩] 2 := by
  have hp : ([(⟨2, none, 0⟩ : OddsTimestamp), ⟨3, none, 1⟩].Perm
      [⟨3, none, 1⟩, ⟨2, none, 0⟩]) :=
    List.Perm.swap (⟨3, none, 1⟩ : OddsTimestamp) (⟨2, none, 0⟩ : OddsTimestamp)
      ([] : List OddsTimestamp)
  have hd : ([(⟨2, none, 0⟩ : OddsTimestamp), ⟨3, none, 1⟩].Pairwise
      (fun x y => x.scraped_at ≠ y.scraped_at)) := by
    simp [List.pairwise_cons]
  exact ⟨hp, detect_line_movements_perm_invariant "e" "h" "a" "b" "m" "o" 2
    _ _ hp hd⟩

/- ### Value bets (`src/analysis/value.py`) -/

/-- The default sharp set (value.py 13); Python `set` iteration order is
embedded as an explicit list. -/
def SHARP_BOOKMAKERS : List String :=
  ["pinnacle", "betfair_ex_uk", "betfair_ex_eu", "betfair_ex_au"]

/-- A detected value bet (`ValueBet`, value.py 16–32). -/
structure ValueBet where
  event_id : String
  home_team : String
  away_team : String
  market_type : String
  outcome_name : String
  bookmaker_key : String
  bookmaker_name : String
  odds : ℚ
  sharp_odds : ℚ
  sharp_bookmaker : String
  true_probability : ℚ
  edge_pct : ℚ
  expected_value : ℚ
deriving DecidableEq

/-- Python `dict` lookup on an insertion-ordered association list. -/
def dict_get {α : Type} (m : List (String × α)) (k : String) : Option α :=
  (m.find? (fun p => decide (p.1 = k))).map (fun p => p.2)

/-- `sharp_books = sharp_books or SHARP_BOOKMAKERS` (value.py 84): `None`
and the empty set are both falsy and are replaced by the default set. -/
def resolve_sharp (sharp_books : Option (List String)) : List String :=
  match sharp_books with
  | none => SHARP_BOOKMAKERS
  | some l => if l = [] then SHARP_BOOKMAKERS else l

/-- The reference-selection loop of `find_value_bets` (value.py 87–93): the
FIRST sharp key present in the input is taken, whatever its price mapping,
and the loop breaks. -/
def find_sharp (sharp : List String)
    (odds_by_bookmaker : List (String × List (String × ℚ))) :
    Option (String × List (String × ℚ)) :=
  match sharp with
  | [] => none
  | k :: rest =>
    match dict_get odds_by_bookmaker k with
    | some prices => some (k, prices)
    | none => find_sharp rest odds_by_bookmaker

/-- `_remove_overround` (value.py 35–56); a zero sharp price would make
`Decimal("1") / price` raise, modelled by `.error ()`. -/
def remove_overround (sharp_prices : List (String × ℚ)) :
    Except Unit (List (String × ℚ)) :=
  if sharp_prices = [] then .ok []
  else if sharp_prices.any (fun p => decide (p.2 = 0)) then .error ()
  else
    if (sharp_prices.map (fun p => 1 / p.2)).sum ≤ 0 then .ok []
    else .ok (sharp_prices.map (fun p =>
      (p.1, (1 / p.2) / (sharp_prices.map (fun q => 1 / q.2)).sum)))

/-- The inner loop of `find_value_bets` over one soft bookmaker's outcomes
(value.py 109–138): outcomes absent from the true-probability mapping are
skipped; a priced outcome beating fair odds becomes a `ValueBet` when its
edge reaches the threshold. `.error ()` models the division-by-zero raised
by `Decimal("1") / price` when a zero-priced outcome beats (negative) fair
odds, and the impossible `KeyError` on `sharp_prices[outcome_name]`. -/
def value_bets_for (e h a m bm_key bm_name sharp_key : String)
    (sharp_prices true_probs : List (String × ℚ)) (min_edge : ℚ) :
    List (String × ℚ) → Except Unit (List ValueBet)
  | [] => .ok []
  | (oname, price) :: rest =>
    match dict_get true_probs oname with
    | none => value_bets_for e h a m bm_key bm_name sharp_key sharp_prices
        true_probs min_edge rest
    | some true_prob =>
      if 1 / true_prob < price then
        if price = 0 then .error ()
        else
          match dict_get sharp_prices oname with
          | none => .error ()
          | some sharp_odds =>
            if min_edge ≤ (true_prob - 1 / price) / (1 / price) * 100 then
              (value_bets_for e h a m bm_key bm_name sharp_key sharp_prices
                  true_probs min_edge rest).map (fun l =>
                (⟨e, h, a, m, oname, bm_key, bm_name, price, sharp_odds,
                  sharp_key, roundDp 6 true_prob,
                  roundDp 4 ((true_prob - 1 / price) / (1 / price) * 100),
                  roundDp 6 (true_prob * (price - 1) - (1 - true_prob))⟩
                  : ValueBet) :: l)
            else value_bets_for e h a m bm_key bm_name sharp_key sharp_prices
              true_probs min_edge rest
      else value_bets_for e h a m bm_key bm_name sharp_key sharp_prices
        true_probs min_edge rest

/-- The outer loop of `find_value_bets` over bookmakers (value.py 105–138),
skipping every bookmaker in the sharp set. -/
def soft_loop (e h a m sharp_key : String) (sharp : List String)
    (sharp_prices true_probs : List (String × ℚ)) (min_edge : ℚ)
    (names : List (String × String)) :
    List (String × List (String × ℚ)) → Except Unit (List ValueBet)
  | [] => .ok []
  | (bm_key, outcomes) :: rest =>
    if bm_key ∈ sharp then
      soft_loop e h a m sharp_key sharp sharp_prices true_probs min_edge
        names rest
    else
      match value_bets_for e h a m bm_key ((dict_get names bm_key).getD bm_key)
          sharp_key sharp_prices true_probs min_edge outcomes with
      | .error u => .error u
      | .ok vbs =>
        match soft_loop e h a m sharp_key sharp sharp_prices true_probs
            min_edge names rest with
        | .error u => .error u
        | .ok more => .ok (vbs ++ more)

/-- `find_value_bets` (value.py 59–146). -/
def find_value_bets (event_id home_team away_team market_type : String)
    (odds_by_bookmaker : List (String × List (String × ℚ)))
    (bookmaker_names : List (String × String)) (min_edge_pct : ℚ)
    (sharp_books : Option (List String)) : Except Unit (List ValueBet) :=
  match find_sharp (resolve_sharp sharp_books) odds_by_bookmaker with
  | none => .ok []
  | some (sharp_key, sharp_prices) =>
    if sharp_prices = [] then .ok []
    else
      match remove_overround sharp_prices with
      | .error u => .error u
      | .ok true_probs =>
        if true_probs = [] then .ok []
        else soft_loop event_id home_team away_team market_type sharp_key
          (resolve_sharp sharp_books) sharp_prices true_probs min_edge_pct
          bookmaker_names odds_by_bookmaker

/-- C8: calling `find_value_bets` with `sharp_books` explicitly the empty
set gives the same result as the default call and as an explicit call with
the default sharp set: the empty override is falsy in
`sharp_books or SHARP_BOOKMAKERS` and is silently replaced, rather than
meaning "no sharp bookmakers". -/
theorem find_value_bets_empty_sharp_default (e h a m : String)
    (odds : List (String × List (String × ℚ)))
    (names : List (String × String)) (minEdge : ℚ) :
    find_value_bets e h a m odds names minEdge (some [])
      = find_value_bets e h a m odds names minEdge none ∧
    find_value_bets e h a m odds names minEdge (some [])
      = find_value_bets e h a m odds names minEdge (some SHARP_BOOKMAKERS) := by
  have h1 : resolve_sharp (some []) = SHARP_BOOKMAKERS := rfl
  have h2 : resolve_sharp none = SHARP_BOOKMAKERS := rfl
  have h3 : resolve_sharp (some SHARP_BOOKMAKERS) = SHARP_BOOKMAKERS := by
    simp [resolve_sharp, SHARP_BOOKMAKERS]
  constructor
  · unfold find_value_bets
    rw [h1, h2]
  · unfold find_value_bets
    rw [h1, h3]

theorem find_sharp_spec (odds : List (String × List (String × ℚ))) :
    ∀ (sharp : List String) (k : String) (prices : List (String × ℚ)),
      find_sharp sharp odds = some (k, prices) →
      sharp.find? (fun q => (dict_get odds q).isSome) = some k ∧
      dict_get odds k = some prices := by
  intro sharp
  induction sharp with
  | nil =>
    intro k prices hk
    exact absurd hk (by simp [find_sharp])
  | cons k0 rest ih =>
    intro k prices hk
    rw [find_sharp] at hk
    cases hd : dict_get odds k0 with
    | some ps =>
      rw [hd] at hk
      have hkp : k0 = k ∧ ps = prices := by simpa using hk
      obtain ⟨rfl, rfl⟩ := hkp
      refine ⟨?_, hd⟩
      simp [List.find?_cons, hd]
    | none =>
      rw [hd] at hk
      have hrec := ih k prices hk
      refine ⟨?_, hrec.2⟩
      rw [List.find?_cons]
      rw [show ((dict_get odds k0).isSome) = false by rw [hd]; rfl]
      exact hrec.1

/-- C1 (amended): the code's reference selection takes the FIRST sharp
bookmaker present in the input — the `find?` of "present" over the sharp
iteration order — regardless of whether its price mapping is non-empty, and
when that first present sharp key has an EMPTY price mapping,
`find_value_bets` returns the empty list instead of falling through to a
later sharp bookmaker that has prices. -/
theorem value_first_present_sharp (sb : Option (List String))
    (e h a m : String) (odds : List (String × List (String × ℚ)))
    (names : List (String × String)) (minEdge : ℚ)
    (k : String) (prices : List (String × ℚ))
    (hfs : find_sharp (resolve_sharp sb) odds = some (k, prices)) :
    (resolve_sharp sb).find? (fun q => (dict_get odds q).isSome) = some k ∧
    dict_get odds k = some prices ∧
    (prices = [] → find_value_bets e h a m odds names minEdge sb = .ok []) := by
  have hspec := find_sharp_spec odds (resolve_sharp sb) k prices hfs
  refine ⟨hspec.1, hspec.2, ?_⟩
  intro hpr
  unfold find_value_bets
  rw [hfs]
  dsimp only
  subst hpr
  rw [if_pos rfl]

/-- Input whose first present sharp key `s1` has an empty price mapping
while the later sharp key `s2` has prices; `soft` offers a clear value
price on outcome A. -/
def c1Odds : List (String × List (String × ℚ)) :=
  [("s1", []), ("s2", [("A", 2), ("B", 2)]), ("soft", [("A", 3)])]

/-- Witness for C1 (amended): on `c1Odds` the selection stops at `s1`
(whose mapping is empty) and `find_value_bets` returns the empty list. -/
theorem value_first_present_sharp_witness :
    find_sharp (resolve_sharp (some ["s1", "s2"])) c1Odds = some ("s1", []) ∧
    find_value_bets "e" "h" "a" "m" c1Odds [] 1 (some ["s1", "s2"]) = .ok [] := by
  have hfs : find_sharp (resolve_sharp (some ["s1", "s2"])) c1Odds
      = some ("s1", []) := by
    simp [find_sharp, resolve_sharp, dict_get, c1Odds, List.find?]
  exact ⟨hfs, (value_first_present_sharp (some ["s1", "s2"]) "e" "h" "a" "m"
    c1Odds [] 1 "s1" [] hfs).2.2 rfl⟩

/-- `c1Odds` with the empty `s1` entry removed: detection then proceeds
against `s2`. -/
def c1OddsDropped : List (String × List (String × ℚ)) :=
  [("s2", [("A", 2), ("B", 2)]), ("soft", [("A", 3)])]

/-- The value bet reported against reference `s2` once `s1` is absent. -/
def c1ValueBet : ValueBet :=
  ⟨"e", "h", "a", "m", "A", "soft", "soft", 3, 2, "s2", 1/2, 50, 1/2⟩

/-- C1 counterexample: with sharp iteration order `["s1", "s2"]` and input
`c1Odds`, the first present sharp key `s1` has an empty mapping and
`find_value_bets` returns `[]`; dropping the empty `s1` entry makes
detection proceed against `s2` and report a value bet, so the code does not
select the later sharp bookmaker with prices as the claim states. -/
theorem value_first_present_sharp_counterexample :
    find_value_bets "e" "h" "a" "m" c1Odds [] 1 (some ["s1", "s2"]) = .ok [] ∧
    find_value_bets "e" "h" "a" "m" c1OddsDropped [] 1 (some ["s1", "s2"])
      = .ok [c1ValueBet] := by
  have hr6h : roundDp 6 ((1:ℚ)/2) = 1/2 := roundDp_eq_self 6 _ 500000 (by norm_num)
  have hr450 : roundDp 4 (50:ℚ) = 50 := roundDp_eq_self 4 _ 500000 (by norm_num)
  constructor
  · have hfs : find_sharp (resolve_sharp (some ["s1", "s2"])) c1Odds
        = some ("s1", []) := by
      simp [find_sharp, resolve_sharp, dict_get, c1Odds, List.find?]
    unfold find_value_bets
    rw [hfs]
    dsimp only
    rw [if_pos rfl]
  · have hres : resolve_sharp (some ["s1", "s2"]) = ["s1", "s2"] := by
      simp [resolve_sharp]
    have h1 : find_sharp ["s1", "s2"] c1OddsDropped
        = some ("s2", [("A", 2), ("B", 2)]) := by
      simp [find_sharp, dict_get, c1OddsDropped, List.find?]
    have h2 : remove_overround [("A", 2), ("B", 2)]
        = .ok [("A", 1/2), ("B", 1/2)] := by
      norm_num [remove_overround]
      exact fun hx => absurd hx (by simp)
    have h3 : value_bets_for "e" "h" "a" "m" "soft" "soft" "s2"
        [("A", 2), ("B", 2)] [("A", 1/2), ("B", 1/2)] 1 [("A", 3)]
        = .ok [c1ValueBet] := by
      norm_num [value_bets_for, dict_get, List.find?, c1ValueBet, hr6h, hr450,
        Except.map]
    have h5 : soft_loop "e" "h" "a" "m" "s2" ["s1", "s2"]
        [("A", 2), ("B", 2)] [("A", 1/2), ("B", 1/2)] 1 [] c1OddsDropped
        = .ok [c1ValueBet] := by
      rw [show c1OddsDropped
        = ("s2", [("A", 2), ("B", 2)]) :: [("soft", [("A", 3)])] from rfl]
      rw [soft_loop]
      rw [if_pos (by simp : ("s2" : String) ∈ ["s1", "s2"])]
      rw [soft_loop]
      rw [if_neg (by simp : ¬(("soft" : String) ∈ ["s1", "s2"]))]
      rw [show (dict_get ([] : List (String × String)) "soft").getD "soft"
        = "soft" from rfl]
      rw [h3]
      rw [soft_loop]
      rfl
    unfold find_value_bets
    rw [hres, h1]
    dsimp only
    rw [if_neg (by simp : ¬([("A", (2:ℚ)), ("B", 2)] = [])), h2]
    dsimp only
    rw [if_neg (by simp : ¬([("A", (1:ℚ)/2), ("B", 1/2)] = []))]
    exact h5
